import Mathlib

/-!
Verification of the Perspectiva ingestion pipeline (`app/ingest.py`,
`app/models.py`) against its natural-language specification.

The pipeline is embedded shallowly:

* pure Python string manipulation is translated into executable Lean
  functions over `String` / `List Char`;
* the external library calls (`trafilatura` fetch + extract, the `sumy`
  LSA summarizer, the VADER sentiment analyzer) are parameters of the
  embedding, bundled in `Libs`; a `none` result models the library
  raising an exception or returning no data, exactly the cases the
  Python code catches;
* the SQLAlchemy session is modelled as an explicit store (`DB`) with
  lists of rows; `query(...).first()` is `List.find?` in insertion
  order; the store-side constraints of `app/models.py` (NOT NULL and
  UNIQUE on `sources.rss_url`, UNIQUE on `articles.url_hash`) are
  enforced at the points where the session commits, mirroring the
  `IntegrityError` handling of the code;
* `hashlib.sha256(url.encode("utf-8")).hexdigest()` is implemented in
  full (UTF-8 encoding, padding, message schedule, compression), so the
  dedup key of `make_hash` is the real digest.
-/

/-! ## SHA-256 (`make_hash`, `app/ingest.py` lines 35-37) -/

namespace SHA256

/-- Truncation to a 32-bit word: machine arithmetic is `Nat` modulo `2^32`. -/
def w32 (n : Nat) : Nat := n % 4294967296

/-- Right rotation of a 32-bit word. -/
def rotr (n x : Nat) : Nat := w32 ((x >>> n) ||| (x <<< (32 - n)))

/-- Bitwise complement of a 32-bit word. -/
def compl32 (x : Nat) : Nat := x ^^^ 4294967295

def smallSigma0 (x : Nat) : Nat := (rotr 7 x) ^^^ (rotr 18 x) ^^^ (x >>> 3)

def smallSigma1 (x : Nat) : Nat := (rotr 17 x) ^^^ (rotr 19 x) ^^^ (x >>> 10)

def bigSigma0 (x : Nat) : Nat := (rotr 2 x) ^^^ (rotr 13 x) ^^^ (rotr 22 x)

def bigSigma1 (x : Nat) : Nat := (rotr 6 x) ^^^ (rotr 11 x) ^^^ (rotr 25 x)

def chFn (x y z : Nat) : Nat := (x &&& y) ^^^ (compl32 x &&& z)

def majFn (x y z : Nat) : Nat := (x &&& y) ^^^ (x &&& z) ^^^ (y &&& z)

/-- The 64 round constants of SHA-256 (FIPS 180-4 section 4.2.2, here as
decimal literals). -/
def K : List Nat :=
  [1116352408, 1899447441, 3049323471, 3921009573, 961987163, 1508970993,
   2453635748, 2870763221, 3624381080, 310598401, 607225278, 1426881987,
   1925078388, 2162078206, 2614888103, 3248222580, 3835390401, 4022224774,
   264347078, 604807628, 770255983, 1249150122, 1555081692, 1996064986,
   2554220882, 2821834349, 2952996808, 3210313671, 3336571891, 3584528711,
   113926993, 338241895, 666307205, 773529912, 1294757372, 1396182291,
   1695183700, 1986661051, 2177026350, 2456956037, 2730485921, 2820302411,
   3259730800, 3345764771, 3516065817, 3600352804, 4094571909, 275423344,
   430227734, 506948616, 659060556, 883997877, 958139571, 1322822218,
   1537002063, 1747873779, 1955562222, 2024104815, 2227730452, 2361852424,
   2428436474, 2756734187, 3204031479, 3329325298]

/-- The initial hash state of SHA-256 (FIPS 180-4 section 5.3.3, decimal). -/
def H0 : List Nat :=
  [1779033703, 3144134277, 1013904242, 2773480762,
   1359893119, 2600822924, 528734635, 1541459225]

/-- UTF-8 encoding of one character, as Python `str.encode("utf-8")` produces. -/
def encodeChar (c : Char) : List Nat :=
  let n := c.toNat
  if n < 0x80 then [n]
  else if n < 0x800 then [0xC0 ||| (n >>> 6), 0x80 ||| (n &&& 0x3F)]
  else if n < 0x10000 then
    [0xE0 ||| (n >>> 12), 0x80 ||| ((n >>> 6) &&& 0x3F), 0x80 ||| (n &&& 0x3F)]
  else
    [0xF0 ||| (n >>> 18), 0x80 ||| ((n >>> 12) &&& 0x3F),
     0x80 ||| ((n >>> 6) &&& 0x3F), 0x80 ||| (n &&& 0x3F)]

/-- UTF-8 bytes of a string. -/
def utf8Bytes (s : String) : List Nat := (s.data.map encodeChar).flatten

/-- The 8-byte big-endian encoding of the message bit length. -/
def lenBytes (bitLen : Nat) : List Nat :=
  [(bitLen >>> 56) &&& 255, (bitLen >>> 48) &&& 255, (bitLen >>> 40) &&& 255,
   (bitLen >>> 32) &&& 255, (bitLen >>> 24) &&& 255, (bitLen >>> 16) &&& 255,
   (bitLen >>> 8) &&& 255, bitLen &&& 255]

/-- SHA-256 message padding: append `0x80`, zeros, and the 64-bit length. -/
def pad (msg : List Nat) : List Nat :=
  let zeros := (64 - (msg.length + 9) % 64) % 64
  msg ++ [0x80] ++ List.replicate zeros 0 ++ lenBytes (8 * msg.length)

/-- Big-endian 32-bit words from a list of bytes. -/
def toWords : List Nat → List Nat
  | b0 :: b1 :: b2 :: b3 :: rest =>
      ((b0 <<< 24) ||| (b1 <<< 16) ||| (b2 <<< 8) ||| b3) :: toWords rest
  | _ => []

/-- Split into 64-byte chunks; the fuel argument (an upper bound on the
number of chunks) makes the recursion structural. -/
def chunksAux : Nat → List Nat → List (List Nat)
  | 0, _ => []
  | _, [] => []
  | fuel + 1, b :: bs => ((b :: bs).take 64) :: chunksAux fuel ((b :: bs).drop 64)

/-- Split the padded message into 64-byte chunks. -/
def chunks (l : List Nat) : List (List Nat) := chunksAux l.length l

/-- Extend the 16 message words of a chunk to the 64-entry schedule. -/
def extendWords (ws : List Nat) : List Nat :=
  (List.range 48).foldl (fun acc i =>
    let j := i + 16
    acc ++ [w32 (smallSigma1 (acc.getD (j - 2) 0) + acc.getD (j - 7) 0 +
                 smallSigma0 (acc.getD (j - 15) 0) + acc.getD (j - 16) 0)]) ws

/-- One round of the compression function on the 8-word working state. -/
def round (st : List Nat) (k w : Nat) : List Nat :=
  match st with
  | [a, b, c, d, e, f, g, h] =>
      let t1 := w32 (h + bigSigma1 e + chFn e f g + k + w)
      let t2 := w32 (bigSigma0 a + majFn a b c)
      [w32 (t1 + t2), a, b, c, w32 (d + t1), e, f, g]
  | other => other

/-- Compress one 64-byte chunk into the hash state. -/
def processChunk (h : List Nat) (chunk : List Nat) : List Nat :=
  let ws := extendWords (toWords chunk)
  let st := (K.zip ws).foldl (fun s kw => round s kw.1 kw.2) h
  (h.zip st).map (fun p => w32 (p.1 + p.2))

/-- The SHA-256 state after absorbing a whole string. -/
def digestWords (s : String) : List Nat :=
  (chunks (pad (utf8Bytes s))).foldl processChunk H0

def hexDigit (n : Nat) : Char := "0123456789abcdef".data.getD n '0'

/-- Lower-case hexadecimal rendering of one 32-bit word. -/
def wordHex (w : Nat) : List Char :=
  [hexDigit ((w >>> 28) &&& 15), hexDigit ((w >>> 24) &&& 15),
   hexDigit ((w >>> 20) &&& 15), hexDigit ((w >>> 16) &&& 15),
   hexDigit ((w >>> 12) &&& 15), hexDigit ((w >>> 8) &&& 15),
   hexDigit ((w >>> 4) &&& 15), hexDigit (w &&& 15)]

/-- `hashlib.sha256(s.encode("utf-8")).hexdigest()`. -/
def hexdigest (s : String) : String :=
  ⟨((digestWords s).map wordHex).flatten⟩

end SHA256

/-- `make_hash` (`app/ingest.py` lines 35-37): SHA-256 hex digest of the URL,
the dedup key. -/
def make_hash (url : String) : String := SHA256.hexdigest url

/-- Sanity: the standard SHA-256 test vector for `"abc"`. -/
example :
    make_hash "abc" =
      "ba7816bf8f01cfea414140de5dae2223b00361a396177a9cb410ff61f20015ad" := by
  decide

/-! ## Python string primitives used by `app/ingest.py` -/

/-- Python `str.strip()` on a character list: whitespace removed from both
ends (the code only meets ASCII whitespace). -/
def trimChars (l : List Char) : List Char :=
  ((l.dropWhile Char.isWhitespace).reverse.dropWhile Char.isWhitespace).reverse

/-- Python `str.strip()`. -/
def pyStrip (s : String) : String := ⟨trimChars s.data⟩

/-- Python slicing `s[:n]`, counting characters as Python does. -/
def pyTake (n : Nat) (s : String) : String := ⟨s.data.take n⟩

/-- Python `str.lower()` (ASCII case folding). -/
def pyLower (s : String) : String := ⟨s.data.map Char.toLower⟩

/-- Python `str.replace(a, b)` for one-character patterns, as in
`text.replace("\n", " ")`. -/
def replaceChar (a b : Char) (s : String) : String :=
  ⟨s.data.map (fun c => if c = a then b else c)⟩

/-- Python `str.replace(pat, sub)` for a non-empty pattern: every
non-overlapping occurrence is replaced, scanning left to right. The fuel
(the input length) makes the recursion structural. -/
def replaceSubAux (pat sub : List Char) : Nat → List Char → List Char
  | 0, l => l
  | _, [] => []
  | fuel + 1, c :: cs =>
      if pat ≠ [] ∧ pat.isPrefixOf (c :: cs) then
        sub ++ replaceSubAux pat sub fuel ((c :: cs).drop pat.length)
      else c :: replaceSubAux pat sub fuel cs

/-- Python `str.replace` (non-empty pattern), e.g. `hostname.replace("www.", "")`:
note it removes every occurrence, not only a leading one. -/
def pyReplace (pat sub s : String) : String :=
  ⟨replaceSubAux pat.data sub.data s.data.length s.data⟩

/-- Python `str.title()`: the first letter of each run of letters is
upper-cased, the following letters lower-cased. -/
def pyTitleAux : Bool → List Char → List Char
  | _, [] => []
  | prev, c :: cs =>
      (if c.isAlpha then (if prev then c.toLower else c.toUpper) else c) ::
        pyTitleAux c.isAlpha cs

/-- Python `str.title()`. -/
def pyTitle (s : String) : String := ⟨pyTitleAux false s.data⟩

/-- Python `str.split(sep)` for a one-character separator: keeps empty
pieces, `"".split(".") = [""]`. -/
def splitChar (sep : Char) : List Char → List (List Char)
  | [] => [[]]
  | c :: cs =>
      if c = sep then [] :: splitChar sep cs
      else
        match splitChar sep cs with
        | [] => [[c]]
        | p :: ps => (c :: p) :: ps

/-- Python `sep.join(pieces)`: `sep` interleaved between the pieces. -/
def joinSep (sep : List Char) : List (List Char) → List Char
  | [] => []
  | [p] => p
  | p :: q :: ps => p ++ sep ++ joinSep sep (q :: ps)

/-- Substring containment test on character lists. -/
def containsSub (hay needle : List Char) : Bool :=
  (List.range (hay.length + 1)).any (fun i => (hay.drop i).take needle.length == needle)

/-- SQLite `LIKE '%hostname%'` on a column (`app/ingest.py` line 242, default
`sqlite:///` engine of `app/config.py`): ASCII-case-insensitive substring
containment. -/
def likeContains (base hostname : String) : Bool :=
  containsSub (pyLower base).data (pyLower hostname).data

/-! ## `urlparse` netloc (`get_hostname`, `app/ingest.py` lines 137-143) -/

/-- The netloc stops at the first `/`, `?` or `#`. -/
def takeNetloc (l : List Char) : List Char :=
  l.takeWhile (fun c => !(c == '/' || c == '?' || c == '#'))

/-- The remainder of the list after the first occurrence of `pat`. -/
def afterSub (pat : List Char) : List Char → Option (List Char)
  | [] => none
  | c :: cs =>
      if pat.isPrefixOf (c :: cs) then some ((c :: cs).drop pat.length)
      else afterSub pat cs

/-- `get_hostname` (`app/ingest.py` lines 137-143):
`urlparse(url).netloc.lower()`. `urlparse` produces a non-empty netloc only
when the URL carries an authority part (after `scheme://`); for a relative
or scheme-less link the netloc is the empty string, which the caller treats
as falsy exactly like the `None` of the exception path. -/
def get_hostname (url : String) : String :=
  match afterSub "://".data url.data with
  | some rest => pyLower ⟨takeNetloc rest⟩
  | none => ""

/-! ## Declared store constraints (`app/models.py`) -/

/-- The declared properties of one column. -/
structure ColumnSpec where
  nullable : Bool
  unique : Bool
deriving DecidableEq

/-- `sources.rss_url` (`app/models.py` line 18): `nullable=False, unique=True`. -/
def sources_rss_url_column : ColumnSpec := { nullable := false, unique := true }

/-- `sources.base_url` (`app/models.py` line 17): `nullable=False` and no
unique constraint. -/
def sources_base_url_column : ColumnSpec := { nullable := false, unique := false }

/-- `articles.url_hash` (`app/models.py` lines 32 and 41-44): `nullable=False`,
unique via `UniqueConstraint("url_hash", name="uix_article_url_hash")`. -/
def articles_url_hash_column : ColumnSpec := { nullable := false, unique := true }

/-! ## Data model -/

/-- The first six fields of a `time.struct_time`, i.e. the arguments of
`datetime(*entry.published_parsed[:6])`. -/
structure DateTuple where
  year : Nat
  month : Nat
  day : Nat
  hour : Nat
  minute : Nat
  second : Nat
deriving DecidableEq

/-- Days of a month, as `datetime` validates them. -/
def daysInMonth (y m : Nat) : Nat :=
  if m = 2 then (if (y % 4 = 0 ∧ y % 100 ≠ 0) ∨ y % 400 = 0 then 29 else 28)
  else if m = 4 ∨ m = 6 ∨ m = 9 ∨ m = 11 then 30 else 31

/-- Whether `datetime(*t)` succeeds — its `ValueError` is what the `try` of
`parse_published_date` catches. -/
def datetimeValid (t : DateTuple) : Bool :=
  decide (1 ≤ t.year ∧ t.year ≤ 9999 ∧ 1 ≤ t.month ∧ t.month ≤ 12 ∧
          1 ≤ t.day ∧ t.day ≤ daysInMonth t.year t.month ∧
          t.hour ≤ 23 ∧ t.minute ≤ 59 ∧ t.second ≤ 59)

/-- One feedparser entry, with the fields the pipeline and the spec read.
`content` is the inline structured content a feed may attach to an entry;
the ingestion code never reads it — only the spec's extraction chain
mentions it. A missing key is `none`. -/
structure Entry where
  link : Option String := none
  title : Option String := none
  summary : Option String := none
  content : Option String := none
  published_parsed : Option DateTuple := none
  updated_parsed : Option DateTuple := none
deriving DecidableEq

/-- A row of `sources` (`app/models.py` lines 13-21). `rss_url` is carried
as an `Option` because the Python API may hand `upsert_source` a `None`;
the NOT NULL constraint is enforced at commit time in `upsert_source`. -/
structure SourceRow where
  id : Nat
  name : String
  base_url : String
  rss_url : Option String
deriving DecidableEq

/-- A row of `articles` (`app/models.py` lines 26-44); `meta_feed` and
`meta_feed_title` are the two keys of the JSON `meta` column. -/
structure ArticleRow where
  id : Nat
  source_id : Nat
  title : String
  url : String
  url_hash : String
  published_at : Option DateTuple
  full_text : String
  summary : String
  sentiment : String
  meta_feed : String
  meta_feed_title : String
deriving DecidableEq

/-- The persistent store: committed rows, in insertion order (which is the
order `query(...).first()` scans without an ORDER BY), plus the id
sequences. -/
structure DB where
  sources : List SourceRow := []
  articles : List ArticleRow := []
  next_source_id : Nat := 1
  next_article_id : Nat := 1
deriving DecidableEq

/-- The external libraries the pipeline calls. `extract` is the trafilatura
fetch-and-extract of `extract_text` (`none` = download failure, empty
extraction or exception — the code returns `None` for all three); `lsa` is
the joined sumy LSA summary (`none` = the exception the code catches);
`vader` is the VADER compound score (`none` = the exception the code
catches). Each is a fixed function: the libraries are deterministic. -/
structure Libs where
  extract : String → Option String
  lsa : String → Nat → Option String
  vader : String → Option Rat

/-! ## The pipeline (`app/ingest.py`) -/

/-- Line 79 of `summarize_text`:
`[s.strip() for s in text.replace("\n", " ").split(".") if s.strip()]`. -/
def sentencePieces (text : String) : List (List Char) :=
  ((splitChar '.' (replaceChar '\n' ' ' text).data).map trimChars).filter
    (fun p => !p.isEmpty)

/-- Lines 77-85 of `summarize_text`: the naive sentence extraction, and under
it the 500-character truncation with the `"..."` marker. -/
def naiveSummary (text : String) (sentences : Nat) : String :=
  if sentencePieces text ≠ [] then
    ⟨joinSep ['.', ' '] ((sentencePieces text).take sentences) ++ ['.']⟩
  else if 500 < text.length then pyTake 500 text ++ "..." else text

/-- `summarize_text` (`app/ingest.py` lines 62-85). Inputs under 50 stripped
characters are returned as they are; then the LSA summary if it is
non-blank; else the naive fallback chain `naiveSummary`. -/
def summarize_text (lsa : String → Nat → Option String) (text : String)
    (sentences : Nat) : String :=
  if text = "" ∨ (pyStrip text).length < 50 then text
  else
    match lsa text sentences with
    | some summary =>
        if pyStrip summary ≠ "" then summary else naiveSummary text sentences
    | none => naiveSummary text sentences

/-- The classification threshold `0.05` of `sentiment_label`, as the exact
rational `1/20` in reduced form (written with an explicit numerator and
denominator so that comparisons against it evaluate without normalization). -/
def vaderThreshold : Rat :=
  { num := 1, den := 20, den_nz := by decide, reduced := Nat.gcd_one_left 20 }

/-- `sentiment_label` (`app/ingest.py` lines 87-102): empty text and an
analyzer error are `"neutral"`; otherwise the compound score against the
`0.05` thresholds decides. -/
def sentiment_label (vader : String → Option Rat) (text : String) : String :=
  if text = "" then "neutral"
  else
    match vader text with
    | none => "neutral"
    | some compound =>
        if vaderThreshold ≤ compound then "positive"
        else if compound ≤ -vaderThreshold then "negative"
        else "neutral"

/-- Python truthiness of the `rss_url` argument in
`if rss_url and src.rss_url != rss_url`. -/
def rssTruthy : Option String → Bool
  | some s => s != ""
  | none => false

/-- `upsert_source` (`app/ingest.py` lines 104-127). Matches an existing row
by `base_url`; updates its `rss_url` if a truthy different one is given,
else creates the row. Each branch commits on its own. The `(db, none)`
results are the `IntegrityError`/`SQLAlchemyError` handlers: the commit
would violate NOT NULL or UNIQUE on `sources.rss_url` (`app/models.py`
line 18), the session is rolled back and `None` returned. -/
def upsert_source (db : DB) (name base_url : String) (rss_url : Option String) :
    DB × Option SourceRow :=
  match db.sources.find? (fun s => s.base_url == base_url) with
  | some src =>
      if rssTruthy rss_url && (src.rss_url != rss_url) then
        if db.sources.any (fun s => s.id != src.id && s.rss_url == rss_url) then
          (db, none)
        else
          let src' := { src with rss_url := rss_url }
          ({ db with sources := db.sources.map (fun s => if s.id == src.id then src' else s) },
           some src')
      else (db, some src)
  | none =>
      if rss_url.isNone then (db, none)
      else if db.sources.any (fun s => s.rss_url == rss_url) then (db, none)
      else
        let src : SourceRow :=
          { id := db.next_source_id, name := name, base_url := base_url, rss_url := rss_url }
        ({ db with sources := db.sources ++ [src], next_source_id := db.next_source_id + 1 },
         some src)

/-- `find_or_create_source` (`app/ingest.py` lines 234-250): (a) exact match
on `rss_url == feed_url`; (b) `base_url LIKE '%hostname%'`; (c) create via
`upsert_source` with the title-cased first label of the hostname after
removing `"www."`. The entry argument is taken but never read, as in the
code. -/
def find_or_create_source (db : DB) (_entry : Entry) (feed_url url : String) :
    DB × Option SourceRow :=
  match db.sources.find? (fun s => s.rss_url == some feed_url) with
  | some s => (db, some s)
  | none =>
      let hostname := get_hostname url
      if hostname ≠ "" then
        match db.sources.find? (fun s => likeContains s.base_url hostname) with
        | some s => (db, some s)
        | none =>
            let source_name :=
              pyTitle ⟨(splitChar '.' (pyReplace "www." "" hostname).data).headD []⟩
            upsert_source db source_name ("https://" ++ hostname) (some feed_url)
      else (db, none)

/-- Lines 196-198 of `process_feed_entry`: the code's extraction fallback —
the full-page fetch-and-extract first, and if it yields nothing (`None` or
`""`, both falsy) the entry's raw `summary` field. -/
def entry_text (extract : String → Option String) (e : Entry) (url : String) : String :=
  match extract url with
  | some t => if t = "" then e.summary.getD "" else t
  | none => e.summary.getD ""

/-- `parse_published_date` (`app/ingest.py` lines 252-259): only
`published_parsed` is consulted; a `ValueError` from `datetime` lands in
the `except` and yields `None`. -/
def parse_published_date (e : Entry) : Option DateTuple :=
  match e.published_parsed with
  | some t => if datetimeValid t then some t else none
  | none => none

/-- `(entry.get("link") or "").strip()`. -/
def entryUrl (e : Entry) : String := pyStrip (e.link.getD "")

/-- Where an injected runtime error strikes while processing one entry:
`noFail` is the normal run; `commit` is an exception raised after source
resolution and before the article commit succeeds (e.g. the final
`db.commit()` of line 221 failing), which the `except` of lines 225-232
answers with `db.rollback()`. A rollback discards only the uncommitted
article insert — the commits `upsert_source` already performed stand. -/
inductive FailAt where
  | noFail
  | commit
deriving DecidableEq

/-- `process_feed_entry` (`app/ingest.py` lines 179-232) with the injected
error point. Returns the store after the entry and the `bool` the function
returns. -/
def process_feed_entry_fail (libs : Libs) (fail : FailAt) (db : DB) (e : Entry)
    (feed_url : String) (summary_sentences : Nat) : DB × Bool :=
  let url := entryUrl e
  if url = "" then (db, false)
  else
    let url_h := make_hash url
    if db.articles.any (fun a => a.url_hash == url_h) then (db, false)
    else
      match find_or_create_source db e feed_url url with
      | (db1, none) => (db1, false)
      | (db1, some source) =>
          let text := entry_text libs.extract e url
          if text = "" ∨ (pyStrip text).length < 100 then (db1, false)
          else if fail = FailAt.commit then (db1, false)
          else
            let summary := summarize_text libs.lsa text summary_sentences
            let sentiment := sentiment_label libs.vader (if summary ≠ "" then summary else text)
            let article : ArticleRow :=
              { id := db1.next_article_id, source_id := source.id,
                title := pyTake 800 (e.title.getD ""), url := url, url_hash := url_h,
                published_at := parse_published_date e,
                full_text := text, summary := summary, sentiment := sentiment,
                meta_feed := feed_url, meta_feed_title := e.title.getD "" }
            ({ db1 with articles := db1.articles ++ [article],
                        next_article_id := db1.next_article_id + 1 }, true)

/-- `process_feed_entry` on a normal run. -/
def process_feed_entry (libs : Libs) (db : DB) (e : Entry) (feed_url : String)
    (summary_sentences : Nat) : DB × Bool :=
  process_feed_entry_fail libs FailAt.noFail db e feed_url summary_sentences

/-- The per-feed entry loop of `fetch_once` (`app/ingest.py` lines 164-166):
the entries of one feed processed in order against the store. -/
def process_entries (libs : Libs) (db : DB) (entries : List Entry)
    (feed_url : String) (summary_sentences : Nat) : DB :=
  entries.foldl (fun d e => (process_feed_entry libs d e feed_url summary_sentences).1) db

/-! ## The spec's extraction chain (for the refinement claim C2) -/

/-- Generic HTML tag stripping, following the spec's words (§4.3); used only
to state the spec side of the extraction chain. -/
def stripHtmlAux : Bool → List Char → List Char
  | _, [] => []
  | inTag, c :: cs =>
      if c = '<' then stripHtmlAux true cs
      else if c = '>' then stripHtmlAux false cs
      else if inTag then stripHtmlAux true cs
      else c :: stripHtmlAux false cs

/-- HTML-stripping as the spec's extraction chain asks for it. -/
def stripHtml (s : String) : String := ⟨stripHtmlAux false s.data⟩

/-- The minimum viable text length the spec names (~100 characters) and the
code enforces (`app/ingest.py` line 200). -/
def min_viable_len : Nat := 100

/-- The extraction fallback chain exactly as the spec states it (§4.3,
quoted by claim C2): (1) inline structured content, HTML-stripped; (2) the
inline summary, HTML-stripped; (3) the full-page fetch-and-extract — each
step accepted only when it yields non-empty text above the minimum length.
This definition follows the spec's words, to be compared with the code's
`entry_text`. -/
def extract_chain_spec (extract : String → Option String) (e : Entry) (url : String) :
    Option String :=
  let ok := fun (t : String) => decide (min_viable_len ≤ (pyStrip t).length)
  let c1 := stripHtml (e.content.getD "")
  if ok c1 then some c1
  else
    let c2 := stripHtml (e.summary.getD "")
    if ok c2 then some c2
    else
      match extract url with
      | some t => if ok t then some t else none
      | none => none

/-! ## Basic lemmas about the string primitives -/

theorem mk_length (l : List Char) : (String.mk l).length = l.length := rfl

theorem mk_ne_empty (l : List Char) (h : l ≠ []) : (String.mk l) ≠ "" := by
  intro he
  exact h (congrArg String.data he)

theorem trimChars_length_le (l : List Char) : (trimChars l).length ≤ l.length := by
  unfold trimChars
  calc ((l.dropWhile Char.isWhitespace).reverse.dropWhile Char.isWhitespace).reverse.length
      = ((l.dropWhile Char.isWhitespace).reverse.dropWhile Char.isWhitespace).length := by
        rw [List.length_reverse]
    _ ≤ (l.dropWhile Char.isWhitespace).reverse.length :=
        List.Sublist.length_le (List.dropWhile_sublist _)
    _ = (l.dropWhile Char.isWhitespace).length := by rw [List.length_reverse]
    _ ≤ l.length := List.Sublist.length_le (List.dropWhile_sublist _)

theorem pyStrip_length_le (s : String) : (pyStrip s).length ≤ s.length :=
  trimChars_length_le s.data

theorem pyStrip_empty : pyStrip "" = "" := rfl

/-- Total length of a list of character lists. -/
def sumLen (ps : List (List Char)) : Nat := (ps.map List.length).sum

theorem sumLen_cons (q : List Char) (qs : List (List Char)) :
    sumLen (q :: qs) = q.length + sumLen qs := by
  simp [sumLen]

theorem sumLen_filter_le (p : List Char → Bool) (ps : List (List Char)) :
    sumLen (ps.filter p) ≤ sumLen ps := by
  induction ps with
  | nil => simp [sumLen]
  | cons q qs ih =>
      by_cases h : p q
      · rw [List.filter_cons_of_pos h, sumLen_cons, sumLen_cons]
        omega
      · rw [List.filter_cons_of_neg (by simpa using h), sumLen_cons]
        omega

theorem sumLen_take_le (k : Nat) (ps : List (List Char)) :
    sumLen (ps.take k) ≤ sumLen ps := by
  induction ps generalizing k with
  | nil => simp [sumLen]
  | cons q qs ih =>
      cases k with
      | zero => simp [sumLen]
      | succ m =>
          rw [List.take_succ_cons, sumLen_cons, sumLen_cons]
          have := ih m
          omega

theorem sumLen_map_trim_le (ps : List (List Char)) :
    sumLen (ps.map trimChars) ≤ sumLen ps := by
  induction ps with
  | nil => simp [sumLen]
  | cons q qs ih =>
      rw [List.map_cons, sumLen_cons, sumLen_cons]
      have := trimChars_length_le q
      omega

theorem splitChar_ne_nil (sep : Char) (l : List Char) : splitChar sep l ≠ [] := by
  cases l with
  | nil => simp [splitChar]
  | cons c cs =>
      unfold splitChar
      by_cases h : c = sep
      · simp [h]
      · simp only [h, if_false]
        cases splitChar sep cs <;> simp

theorem splitChar_sumLen_le (sep : Char) (l : List Char) :
    sumLen (splitChar sep l) ≤ l.length := by
  induction l with
  | nil => simp [splitChar, sumLen]
  | cons c cs ih =>
      unfold splitChar
      by_cases h : c = sep
      · rw [if_pos h, sumLen_cons]
        simp only [List.length_nil, List.length_cons]
        omega
      · rw [if_neg h]
        cases hs : splitChar sep cs with
        | nil => exact absurd hs (splitChar_ne_nil sep cs)
        | cons p ps =>
            rw [hs, sumLen_cons] at ih
            rw [sumLen_cons]
            simp only [List.length_cons]
            omega

theorem joinSep_length_le (sep : List Char) (ps : List (List Char)) :
    (joinSep sep ps).length ≤ sumLen ps + sep.length * ps.length := by
  induction ps with
  | nil => simp [joinSep, sumLen]
  | cons p qs ih =>
      cases qs with
      | nil => simp [joinSep, sumLen]
      | cons q rs =>
          have ih' : (joinSep sep (q :: rs)).length ≤
              q.length + sumLen rs + sep.length * (rs.length + 1) := by
            simpa [sumLen_cons, List.length_cons] using ih
          rw [joinSep]
          simp only [List.length_append, sumLen_cons, List.length_cons]
          have hmul : sep.length * (rs.length + 1 + 1) =
              sep.length * (rs.length + 1) + sep.length := by ring
          omega

theorem containsSub_append_self (a b : List Char) : containsSub (a ++ b) b = true := by
  unfold containsSub
  rw [List.any_eq_true]
  refine ⟨a.length, ?_, ?_⟩
  · rw [List.mem_range, List.length_append]
    omega
  · rw [List.drop_left, List.take_length]
    exact beq_self_eq_true b

/-! ## Lemmas about `summarize_text` -/

theorem sentencePieces_sumLen_le (text : String) :
    sumLen (sentencePieces text) ≤ text.length := by
  unfold sentencePieces
  refine le_trans (sumLen_filter_le _ _) (le_trans (sumLen_map_trim_le _) ?_)
  have h := splitChar_sumLen_le '.' (replaceChar '\n' ' ' text).data
  have hlen : (replaceChar '\n' ' ' text).data.length = text.length := by
    simp [replaceChar]
  omega

theorem naiveSummary_ne_empty (text : String) (n : Nat) (h : text ≠ "") :
    naiveSummary text n ≠ "" := by
  unfold naiveSummary
  split
  · exact mk_ne_empty _ (by simp)
  · split
    · intro he
      have hlen : (pyTake 500 text ++ "...").length = 0 := by rw [he]; rfl
      rw [String.length_append] at hlen
      have : ("..." : String).length = 3 := rfl
      omega
    · exact h

theorem naiveSummary_length_le (text : String) (n : Nat) :
    (naiveSummary text n).length ≤ text.length + 2 * n + 3 := by
  unfold naiveSummary
  split
  · have h1 := joinSep_length_le ['.', ' '] ((sentencePieces text).take n)
    have h2 := sumLen_take_le n (sentencePieces text)
    have h3 := sentencePieces_sumLen_le text
    have h4 : ((sentencePieces text).take n).length ≤ n := by
      rw [List.length_take]
      exact min_le_left _ _
    have hsep : (['.', ' '] : List Char).length = 2 := rfl
    rw [mk_length, List.length_append]
    simp only [List.length_cons, List.length_nil]
    rw [hsep] at h1
    have h5 : 2 * ((sentencePieces text).take n).length ≤ 2 * n :=
      Nat.mul_le_mul_left 2 h4
    omega
  · split
    · rw [String.length_append]
      have h1 : (pyTake 500 text).length ≤ text.length := by
        have : (pyTake 500 text).length = min 500 text.length := by
          simp [pyTake, List.length_take]
        omega
      have h2 : ("..." : String).length = 3 := rfl
      omega
    · omega

/-- Claim C3 (amended): for every non-empty input and any behaviour of the
LSA summarizer whose output never exceeds the input length, `summarize_text`
returns a non-empty string of length at most the input length plus
`2 * sentences + 3` (the naive fallback may add up to two characters per
joined sentence plus a final period, the truncation fallback up to three
ellipsis characters). -/
theorem summarize_total_and_bounded (lsa : String → Nat → Option String)
    (text : String) (n : Nat) (htext : text ≠ "")
    (hlsa : ∀ s, lsa text n = some s → s.length ≤ text.length) :
    summarize_text lsa text n ≠ "" ∧
    (summarize_text lsa text n).length ≤ text.length + 2 * n + 3 := by
  unfold summarize_text
  by_cases hshort : text = "" ∨ (pyStrip text).length < 50
  · rw [if_pos hshort]
    exact ⟨htext, by omega⟩
  · rw [if_neg hshort]
    cases hl : lsa text n with
    | none => exact ⟨naiveSummary_ne_empty text n htext, naiveSummary_length_le text n⟩
    | some s =>
        dsimp only
        by_cases hs : pyStrip s ≠ ""
        · rw [if_pos hs]
          refine ⟨fun he => ?_, ?_⟩
          · rw [he] at hs
            exact hs pyStrip_empty
          · have := hlsa s hl
            omega
        · rw [if_neg hs]
          exact ⟨naiveSummary_ne_empty text n htext, naiveSummary_length_le text n⟩

/-- Witness for C3's theorem at a concrete input. -/
theorem summarize_total_witness :
    summarize_text (fun _ _ => none) "hello" 3 ≠ "" ∧
    (summarize_text (fun _ _ => none) "hello" 3).length ≤ "hello".length + 2 * 3 + 3 :=
  summarize_total_and_bounded (fun _ _ => none) "hello" 3 (by decide)
    (fun _ h => Option.noConfusion h)

/-- A 60-character input with no sentence-ending period. -/
def sixtyAs : String := String.mk (List.replicate 60 'a')

/-- Claim C3, counterexample: when the LSA summarizer fails (the exception
path the code catches), the naive fallback appends a period and returns 61
characters for a 60-character input, so the spec's `length ≤ original` bound
is false. -/
theorem summarize_length_counterexample :
    ¬ ((summarize_text (fun _ _ => none) sixtyAs 3).length ≤ sixtyAs.length) := by
  decide

/-! ## Claim C4: totality of `sentiment_label` -/

/-- Claim C4: `sentiment_label` always returns one of the three labels, and
returns `"neutral"` on empty input and on an analyzer error (the embedding
is a total function, as the code catches every exception). -/
theorem sentiment_label_total (vader : String → Option Rat) (text : String) :
    (sentiment_label vader text = "positive" ∨ sentiment_label vader text = "neutral" ∨
      sentiment_label vader text = "negative") ∧
    (text = "" → sentiment_label vader text = "neutral") ∧
    (vader text = none → sentiment_label vader text = "neutral") := by
  unfold sentiment_label
  by_cases ht : text = ""
  · rw [if_pos ht]
    exact ⟨Or.inr (Or.inl rfl), fun _ => rfl, fun _ => rfl⟩
  · rw [if_neg ht]
    cases hv : vader text with
    | none => exact ⟨Or.inr (Or.inl rfl), fun h => absurd h ht, fun _ => rfl⟩
    | some c =>
        dsimp only
        refine ⟨?_, fun h => absurd h ht, fun h => Option.noConfusion h⟩
        by_cases h1 : vaderThreshold ≤ c
        · rw [if_pos h1]
          exact Or.inl rfl
        · rw [if_neg h1]
          by_cases h2 : c ≤ -vaderThreshold
          · rw [if_pos h2]
            exact Or.inr (Or.inr rfl)
          · rw [if_neg h2]
            exact Or.inr (Or.inl rfl)

/-! ## Claim C8: the published timestamp -/

/-- Claim C8 (amended): the published timestamp comes from the entry's
explicit published time alone — it is present exactly when a valid
published time is, and when the published time is absent the result is
absent no matter what the updated time holds. -/
theorem published_date_from_published_only (e : Entry) :
    ((parse_published_date e).isSome → e.published_parsed.isSome) ∧
    (e.published_parsed = none → parse_published_date e = none) ∧
    (∀ t, e.published_parsed = some t → datetimeValid t = true →
      parse_published_date e = some t) := by
  unfold parse_published_date
  cases hp : e.published_parsed with
  | none =>
      exact ⟨fun h => by simp at h, fun _ => rfl, fun t ht => Option.noConfusion ht⟩
  | some t =>
      dsimp only
      refine ⟨fun _ => rfl, fun h => Option.noConfusion h, ?_⟩
      intro t' ht' hv
      have heq : t = t' := by injection ht'
      subst heq
      rw [if_pos hv]

/-- An entry carrying only an updated time. -/
def entryUpdatedOnly : Entry :=
  { link := some "https://x.com/b", updated_parsed := some ⟨2024, 5, 1, 10, 0, 0⟩ }

/-- Claim C8, counterexample: an entry with an explicit updated time and no
published time yields an absent timestamp, where the claim promises the
updated time is used. -/
theorem published_date_ignores_updated :
    parse_published_date entryUpdatedOnly = none ∧
    entryUpdatedOnly.updated_parsed ≠ none := by
  decide

/-! ## Claim C2: the extraction fallback chain -/

/-- Claim C2 (amended): the code's extraction fallback tries the full-page
fetch-and-extract first and falls back to the entry's raw summary whenever
the fetch yields `None` or empty text; the inline content is never
consulted and no HTML-stripping is applied. -/
theorem entry_text_fallback_order (f : String → Option String) (e : Entry) (url t : String) :
    (f url = some t → t ≠ "" → entry_text f e url = t) ∧
    (f url = none → entry_text f e url = e.summary.getD "") ∧
    (f url = some "" → entry_text f e url = e.summary.getD "") := by
  unfold entry_text
  cases hf : f url with
  | none => exact ⟨fun h => Option.noConfusion h, fun _ => rfl, fun h => Option.noConfusion h⟩
  | some s =>
      dsimp only
      refine ⟨fun h hne => ?_, fun h2 => Option.noConfusion h2, fun h3 => ?_⟩
      · have heq : s = t := by injection h
        subst heq
        rw [if_neg hne]
      · have heq : s = "" := by injection h3
        subst heq
        rw [if_pos rfl]

def demoFetchText : String := String.mk (List.replicate 110 'F')

def demoContentText : String := String.mk (List.replicate 110 'C')

def demoSummaryHtml : String := "<p>" ++ String.mk (List.replicate 110 'S') ++ "</p>"

/-- A fetch that succeeds with `demoFetchText` for every URL. -/
def demoFetch : String → Option String := fun _ => some demoFetchText

/-- An entry with inline content, an HTML summary and a reachable link. -/
def demoEntryContent : Entry :=
  { link := some "https://x.com/a", content := some demoContentText,
    summary := some demoSummaryHtml }

set_option maxRecDepth 40000 in
/-- Claim C2, counterexample: the spec's chain would return the inline
content, but the code returns the fetched page text; and for an unreachable
link the code returns the raw summary, not the HTML-stripped one. -/
theorem entry_text_order_counterexample :
    extract_chain_spec demoFetch demoEntryContent "https://x.com/a" = some demoContentText ∧
    entry_text demoFetch demoEntryContent "https://x.com/a" = demoFetchText ∧
    demoContentText ≠ demoFetchText ∧
    entry_text (fun _ => none) demoEntryContent "https://x.com/a" ≠
      stripHtml (demoEntryContent.summary.getD "") := by
  decide

/-! ## Structural lemmas about the store operations -/

theorem upsert_articles (db : DB) (nm b : String) (r : Option String) :
    (upsert_source db nm b r).1.articles = db.articles := by
  unfold upsert_source
  cases h : db.sources.find? (fun s => s.base_url == b) with
  | some src =>
      dsimp only
      split
      · split <;> rfl
      · rfl
  | none =>
      dsimp only
      split
      · rfl
      · split <;> rfl

theorem foc_articles (db : DB) (e : Entry) (f u : String) :
    (find_or_create_source db e f u).1.articles = db.articles := by
  unfold find_or_create_source
  cases h : db.sources.find? (fun s => s.rss_url == some f) with
  | some s => rfl
  | none =>
      dsimp only
      split
      · cases h2 : db.sources.find? (fun s => likeContains s.base_url (get_hostname u)) with
        | some s => rfl
        | none => exact upsert_articles db _ _ _
      · rfl

theorem any_hash_false {db : DB} {h : String}
    (hany : ¬ db.articles.any (fun a => a.url_hash == h) = true) :
    ∀ x ∈ db.articles, x.url_hash ≠ h := by
  intro x hx
  simp only [List.any_eq_true, beq_iff_eq, not_exists] at hany
  intro he
  exact hany x ⟨hx, he⟩

/-- The outcome of processing one entry: either the run leaves the article
table unchanged and reports failure, or it appends exactly one article whose
fields are computed by the pipeline and whose hash was absent. -/
theorem pfe_cases (libs : Libs) (fail : FailAt) (db : DB) (e : Entry)
    (feed : String) (n : Nat) :
    ((process_feed_entry_fail libs fail db e feed n).1.articles = db.articles ∧
      (process_feed_entry_fail libs fail db e feed n).2 = false) ∨
    (∃ a, (process_feed_entry_fail libs fail db e feed n).1.articles = db.articles ++ [a] ∧
      (process_feed_entry_fail libs fail db e feed n).2 = true ∧
      a.url_hash = make_hash (entryUrl e) ∧
      a.full_text = entry_text libs.extract e (entryUrl e) ∧
      ¬(a.full_text = "" ∨ (pyStrip a.full_text).length < 100) ∧
      a.summary = summarize_text libs.lsa a.full_text n ∧
      a.sentiment = sentiment_label libs.vader
        (if a.summary ≠ "" then a.summary else a.full_text) ∧
      a.published_at = parse_published_date e ∧
      (∀ x ∈ db.articles, x.url_hash ≠ make_hash (entryUrl e))) := by
  simp only [process_feed_entry_fail]
  split
  · exact Or.inl ⟨rfl, rfl⟩
  · split
    · exact Or.inl ⟨rfl, rfl⟩
    · next hany =>
        split
        next db1 hfoc =>
          have harts := foc_articles db e feed (entryUrl e)
          rw [hfoc] at harts
          exact Or.inl ⟨harts, rfl⟩
        next db1 source hfoc =>
          have harts := foc_articles db e feed (entryUrl e)
          rw [hfoc] at harts
          split
          · exact Or.inl ⟨harts, rfl⟩
          · split
            · exact Or.inl ⟨harts, rfl⟩
            · next htext hfail =>
                have harts' : db1.articles = db.articles := harts
                rw [harts']
                exact Or.inr ⟨_, rfl, rfl, rfl, rfl, htext, rfl, rfl, rfl,
                  any_hash_false hany⟩

/-! ## Concrete demonstration data (shared by witnesses and counterexamples) -/

/-- A 120-character summary, long enough to pass the viability check. -/
def demoText : String := String.mk (List.replicate 120 's')

/-- Libraries for the demonstrations: the article fetch always fails, the
LSA summarizer always raises, VADER scores 0 (neutral). -/
def demoLibs : Libs :=
  { extract := fun _ => none, lsa := fun _ _ => none, vader := fun _ => some 0 }

def demoFeed : String := "https://agg.example/feed.xml"

/-- An entry whose link has a resolvable hostname. -/
def demoEntrySite : Entry :=
  { link := some "https://site.com/a", summary := some demoText }

/-- An entry whose link is relative, so `urlparse` yields no hostname. -/
def demoEntryRel : Entry :=
  { link := some "relative.html", summary := some demoText }

def dummyArticle : ArticleRow :=
  { id := 0, source_id := 0, title := "", url := "", url_hash := "",
    published_at := none, full_text := "", summary := "", sentiment := "",
    meta_feed := "", meta_feed_title := "" }

/-- The article the pipeline stores for `demoEntrySite` on an empty store. -/
def demoArticle : ArticleRow :=
  (process_feed_entry demoLibs {} demoEntrySite demoFeed 3).1.articles.headD dummyArticle

/-! ## Claim C5: transaction scope of one entry -/

/-- Claim C5 (amended): the Article write of one entry is all-or-nothing —
whatever error strikes, the article table either is unchanged or gains
exactly the one new article. (Source rows committed by `upsert_source` on
the entry's behalf are outside this guarantee; see the counterexample.) -/
theorem entry_article_write_atomic (libs : Libs) (fail : FailAt) (db : DB)
    (e : Entry) (feed : String) (n : Nat) :
    (process_feed_entry_fail libs fail db e feed n).1.articles = db.articles ∨
    ∃ a, (process_feed_entry_fail libs fail db e feed n).1.articles = db.articles ++ [a] := by
  rcases pfe_cases libs fail db e feed n with ⟨h, _⟩ | ⟨a, h, _⟩
  · exact Or.inl h
  · exact Or.inr ⟨a, h⟩

set_option maxRecDepth 100000 in
/-- Claim C5, counterexample: an error at the article commit is rolled back,
yet the Source row created for the entry by `upsert_source` (which committed
in its own transaction, `app/ingest.py` line 117) stays visible — a partial
write for the failed entry. -/
theorem entry_source_write_survives_rollback :
    (process_feed_entry_fail demoLibs FailAt.commit {} demoEntrySite demoFeed 3).2 = false ∧
    (process_feed_entry_fail demoLibs FailAt.commit {} demoEntrySite demoFeed 3).1.articles = [] ∧
    (process_feed_entry_fail demoLibs FailAt.commit {} demoEntrySite demoFeed 3).1.sources ≠ [] := by
  decide

/-! ## Claim C9: no short article is ever persisted -/

/-- Claim C9: every article the entry loop adds has non-empty full text of
stripped length at least 100 — an entry whose extracted text misses the
minimum viable length is discarded without a write. -/
theorem stored_articles_min_length (libs : Libs) (db : DB) (es : List Entry)
    (feed : String) (n : Nat) (a : ArticleRow)
    (ha : a ∈ (process_entries libs db es feed n).articles) :
    a ∈ db.articles ∨ (a.full_text ≠ "" ∧ 100 ≤ (pyStrip a.full_text).length) := by
  induction es generalizing db with
  | nil => exact Or.inl ha
  | cons e es ih =>
      have hstep : process_entries libs db (e :: es) feed n =
          process_entries libs (process_feed_entry libs db e feed n).1 es feed n := rfl
      rw [hstep] at ha
      rcases ih _ ha with hmem | hgood
      · simp only [process_feed_entry] at hmem
        rcases pfe_cases libs FailAt.noFail db e feed n with ⟨heq, _⟩ |
          ⟨b, heq, _, _, _, hbad, _⟩
        · rw [heq] at hmem
          exact Or.inl hmem
        · rw [heq] at hmem
          rcases List.mem_append.mp hmem with hl | hr
          · exact Or.inl hl
          · have hab : a = b := by simpa using hr
            subst hab
            push_neg at hbad
            exact Or.inr ⟨hbad.1, by omega⟩
      · exact Or.inr hgood

set_option maxRecDepth 100000 in
/-- Witness for C9's theorem: the concrete stored article. -/
theorem stored_articles_min_length_witness :
    demoArticle ∈ ({} : DB).articles ∨
    (demoArticle.full_text ≠ "" ∧ 100 ≤ (pyStrip demoArticle.full_text).length) :=
  stored_articles_min_length demoLibs {} [demoEntrySite] demoFeed 3 demoArticle
    (by decide)

/-! ## Claim C10: which text the sentiment is computed from -/

/-- Claim C10: the stored sentiment label is computed from the stored
summary when that is non-empty, and from the full extracted text only when
the summary is empty (`sentiment_label(summary or text)`, line 205); the
stored summary itself is computed from the full text. -/
theorem sentiment_from_summary_first (libs : Libs) (db : DB) (e : Entry)
    (feed : String) (n : Nat) (a : ArticleRow)
    (h : (process_feed_entry libs db e feed n).1.articles = db.articles ++ [a]) :
    a.sentiment = sentiment_label libs.vader
      (if a.summary = "" then a.full_text else a.summary) ∧
    a.summary = summarize_text libs.lsa a.full_text n := by
  simp only [process_feed_entry] at h
  rcases pfe_cases libs FailAt.noFail db e feed n with ⟨heq, _⟩ |
    ⟨b, heq, _, _, _, _, hsum, hsent, _, _⟩
  · exfalso
    rw [heq] at h
    have hlen := congrArg List.length h
    simp at hlen
  · rw [heq] at h
    have hab : b = a := by
      have h2 := List.append_cancel_left h
      simpa using h2
    subst hab
    refine ⟨?_, hsum⟩
    rw [hsent]
    by_cases hbs : b.summary = ""
    · simp [hbs]
    · simp [hbs]

set_option maxRecDepth 100000 in
/-- Witness for C10's theorem: the concrete stored article. -/
theorem sentiment_from_summary_first_witness :
    demoArticle.sentiment = sentiment_label demoLibs.vader
      (if demoArticle.summary = "" then demoArticle.full_text else demoArticle.summary) ∧
    demoArticle.summary = summarize_text demoLibs.lsa demoArticle.full_text 3 :=
  sentiment_from_summary_first demoLibs {} demoEntrySite demoFeed 3 demoArticle
    (by decide)

/-! ## Claim C6: constraints on Source rows -/

/-- The invariant of the sources table: primary keys are distinct and below
the id sequence; `rss_url` values are non-NULL and pairwise distinct (the
declared `nullable=False, unique=True`); base URLs are pairwise distinct
(not declared in the schema — maintained by `upsert_source` alone). -/
def DBInv (db : DB) : Prop :=
  db.sources.Pairwise (fun a b => a.id ≠ b.id) ∧
  db.sources.Pairwise (fun a b => a.base_url ≠ b.base_url) ∧
  db.sources.Pairwise (fun a b => a.rss_url ≠ b.rss_url) ∧
  (∀ s ∈ db.sources, s.rss_url ≠ none) ∧
  (∀ s ∈ db.sources, s.id < db.next_source_id)

theorem rssTruthy_iff (r : Option String) :
    rssTruthy r = true ↔ ∃ v, r = some v ∧ v ≠ "" := by
  cases r <;> simp [rssTruthy]

/-- In a table with pairwise-distinct ids, the id determines the row. -/
theorem id_inj {l : List SourceRow} (hid : l.Pairwise (fun a b => a.id ≠ b.id))
    {a b : SourceRow} (ha : a ∈ l) (hb : b ∈ l) (h : a.id = b.id) : a = b := by
  by_cases hab : a = b
  · exact hab
  · exact absurd h (hid.forall (fun x y hxy => hxy.symm) ha hb hab)

theorem upsert_preserves_inv (db : DB) (nm b : String) (r : Option String)
    (h : DBInv db) : DBInv (upsert_source db nm b r).1 := by
  obtain ⟨hid, hbase, hrss, hnn, hlt⟩ := h
  unfold upsert_source
  cases hf : db.sources.find? (fun s => s.base_url == b) with
  | some src =>
      have hsrc : src ∈ db.sources := List.mem_of_find?_eq_some hf
      dsimp only
      split
      · next hcond =>
          rw [Bool.and_eq_true] at hcond
          obtain ⟨v, hv, hvne⟩ := (rssTruthy_iff r).mp hcond.1
          split
          · exact ⟨hid, hbase, hrss, hnn, hlt⟩
          · next hdup =>
              simp only [List.any_eq_true, Bool.and_eq_true, bne_iff_ne, beq_iff_eq] at hdup
              push_neg at hdup
              have hfid : ∀ s : SourceRow,
                  ((if s.id == src.id then { src with rss_url := r } else s) : SourceRow).id
                    = s.id := by
                intro s
                by_cases hc : s.id == src.id
                · rw [if_pos hc]
                  exact (beq_iff_eq.mp hc).symm
                · rw [if_neg (by simpa using hc)]
              have hfbase : ∀ s ∈ db.sources,
                  ((if s.id == src.id then { src with rss_url := r } else s) : SourceRow).base_url
                    = s.base_url := by
                intro s hs
                by_cases hc : s.id == src.id
                · have heq : s = src := id_inj hid hs hsrc (beq_iff_eq.mp hc)
                  subst heq
                  rw [if_pos hc]
                · rw [if_neg (by simpa using hc)]
              refine ⟨?_, ?_, ?_, ?_, ?_⟩
              · rw [List.pairwise_map]
                exact hid.imp_of_mem (fun {x y} hx hy hxy => by
                  rw [hfid x, hfid y]; exact hxy)
              · rw [List.pairwise_map]
                exact hbase.imp_of_mem (fun {x y} hx hy hxy => by
                  rw [hfbase x hx, hfbase y hy]; exact hxy)
              · rw [List.pairwise_map]
                refine (hid.and hrss).imp_of_mem ?_
                intro x y hx hy hxy
                by_cases hcx : x.id == src.id
                · by_cases hcy : y.id == src.id
                  · exact absurd ((beq_iff_eq.mp hcx).trans (beq_iff_eq.mp hcy).symm) hxy.1
                  · rw [if_pos hcx, if_neg (by simpa using hcy)]
                    intro he
                    exact hdup y hy (fun h2 => by simp [h2] at hcy) he.symm
                · by_cases hcy : y.id == src.id
                  · rw [if_neg (by simpa using hcx), if_pos hcy]
                    intro he
                    exact hdup x hx (fun h2 => by simp [h2] at hcx) he
                  · rw [if_neg (by simpa using hcx), if_neg (by simpa using hcy)]
                    exact hxy.2
              · intro s' hs'
                rcases List.mem_map.mp hs' with ⟨x, hx, hfx⟩
                subst hfx
                by_cases hc : x.id == src.id
                · rw [if_pos hc, hv]
                  simp
                · rw [if_neg (by simpa using hc)]
                  exact hnn x hx
              · intro s' hs'
                rcases List.mem_map.mp hs' with ⟨x, hx, hfx⟩
                subst hfx
                have : ((if x.id == src.id then { src with rss_url := r } else x) : SourceRow).id
                    = x.id := hfid x
                rw [this]
                exact hlt x hx
      · exact ⟨hid, hbase, hrss, hnn, hlt⟩
  | none =>
      dsimp only
      split
      · exact ⟨hid, hbase, hrss, hnn, hlt⟩
      · split
        · exact ⟨hid, hbase, hrss, hnn, hlt⟩
        · next hnone hdup =>
            have hfnone := List.find?_eq_none.mp hf
            simp only [List.any_eq_true, beq_iff_eq, not_exists, not_and] at hdup
            have hrne : r ≠ none := by
              intro he
              rw [he] at hnone
              exact hnone rfl
            refine ⟨?_, ?_, ?_, ?_, ?_⟩
            · rw [List.pairwise_append]
              refine ⟨hid, List.pairwise_singleton _ _, ?_⟩
              intro x hx y hy
              rw [List.mem_singleton] at hy
              subst hy
              exact fun he => absurd he.symm (Nat.ne_of_gt (hlt x hx))
            · rw [List.pairwise_append]
              refine ⟨hbase, List.pairwise_singleton _ _, ?_⟩
              intro x hx y hy
              rw [List.mem_singleton] at hy
              subst hy
              intro he
              exact hfnone x hx (by simpa using he)
            · rw [List.pairwise_append]
              refine ⟨hrss, List.pairwise_singleton _ _, ?_⟩
              intro x hx y hy
              rw [List.mem_singleton] at hy
              subst hy
              exact fun he => hdup x hx he
            · intro s' hs'
              rcases List.mem_append.mp hs' with hl | hr
              · exact hnn s' hl
              · rw [List.mem_singleton] at hr
                subst hr
                exact hrne
            · intro s' hs'
              rcases List.mem_append.mp hs' with hl | hr
              · exact Nat.lt_succ_of_lt (hlt s' hl)
              · rw [List.mem_singleton] at hr
                subst hr
                exact Nat.lt_succ_self _

theorem foc_preserves_inv (db : DB) (e : Entry) (f u : String)
    (h : DBInv db) : DBInv (find_or_create_source db e f u).1 := by
  unfold find_or_create_source
  cases hf : db.sources.find? (fun s => s.rss_url == some f) with
  | some s => exact h
  | none =>
      dsimp only
      split
      · cases h2 : db.sources.find? (fun s => likeContains s.base_url (get_hostname u)) with
        | some s => exact h
        | none => exact upsert_preserves_inv db _ _ _ h
      · exact h

theorem pfe_preserves_inv (libs : Libs) (fail : FailAt) (db : DB) (e : Entry)
    (feed : String) (n : Nat) (h : DBInv db) :
    DBInv (process_feed_entry_fail libs fail db e feed n).1 := by
  simp only [process_feed_entry_fail]
  split
  · exact h
  · split
    · exact h
    · split
      next db1 hfoc =>
        have h1 := foc_preserves_inv db e feed (entryUrl e) h
        rw [hfoc] at h1
        exact h1
      next db1 source hfoc =>
        have h1 := foc_preserves_inv db e feed (entryUrl e) h
        rw [hfoc] at h1
        split
        · exact h1
        · split
          · exact h1
          · exact h1

/-- Claim C6 (amended): in the schema the feed URL (`rss_url`) is required
(NOT NULL) and unique across sources, store-enforced; the base URL carries
no unique constraint in the store, but `upsert_source` (and hence entry
processing) preserves pairwise-distinct base URLs by reusing the existing
row with an equal base URL. -/
theorem source_url_constraints (db : DB) (nm b : String) (r : Option String)
    (libs : Libs) (fail : FailAt) (e : Entry) (feed : String) (n : Nat)
    (h : DBInv db) :
    (sources_rss_url_column.nullable = false ∧ sources_rss_url_column.unique = true ∧
      sources_base_url_column.unique = false) ∧
    DBInv (upsert_source db nm b r).1 ∧
    DBInv (process_feed_entry_fail libs fail db e feed n).1 :=
  ⟨⟨rfl, rfl, rfl⟩, upsert_preserves_inv db nm b r h,
    pfe_preserves_inv libs fail db e feed n h⟩

/-- The empty store satisfies the sources invariant. -/
theorem dbinv_empty : DBInv {} :=
  ⟨List.Pairwise.nil, List.Pairwise.nil, List.Pairwise.nil,
    fun s hs => absurd hs (List.not_mem_nil s),
    fun s hs => absurd hs (List.not_mem_nil s)⟩

/-- Witness for C6's theorem at a concrete store and inputs. -/
theorem source_url_constraints_witness :
    (sources_rss_url_column.nullable = false ∧ sources_rss_url_column.unique = true ∧
      sources_base_url_column.unique = false) ∧
    DBInv (upsert_source {} "BBC" "https://www.bbc.co.uk" (some "https://feeds.bbci.co.uk/news/rss.xml")).1 ∧
    DBInv (process_feed_entry_fail demoLibs FailAt.noFail {} demoEntrySite demoFeed 3).1 :=
  source_url_constraints {} "BBC" "https://www.bbc.co.uk"
    (some "https://feeds.bbci.co.uk/news/rss.xml") demoLibs FailAt.noFail
    demoEntrySite demoFeed 3 dbinv_empty

/-- Claim C6, counterexample: the schema declares `rss_url` NOT NULL (the
feed URL is not optional) and declares no unique constraint on `base_url`. -/
theorem source_schema_counterexample :
    ¬ (sources_rss_url_column.nullable = true ∧ sources_base_url_column.unique = true) := by
  decide

/-! ## Characterizing `find_or_create_source` -/

theorem likeContains_https (h : String) : likeContains ("https://" ++ h) h = true := by
  unfold likeContains
  have hdata : (pyLower ("https://" ++ h)).data =
      ("https://".data.map Char.toLower) ++ (h.data.map Char.toLower) := by
    show (("https://" ++ h).data.map Char.toLower) = _
    rw [String.data_append, List.map_append]
  rw [hdata]
  exact containsSub_append_self _ _

/-- The Source row step (c) of `find_or_create_source` creates. -/
def focNewSource (db : DB) (f u : String) : SourceRow :=
  { id := db.next_source_id,
    name := pyTitle ⟨(splitChar '.' (pyReplace "www." "" (get_hostname u)).data).headD []⟩,
    base_url := "https://" ++ get_hostname u,
    rss_url := some f }

/-- Resolution trichotomy: step (a) hits and nothing is written; or step (a)
misses, the hostname is usable, and either step (b) hits with nothing
written or steps (b) misses and step (c) appends exactly the new row; or
the hostname is empty and resolution fails with nothing written. -/
theorem foc_spec (db : DB) (e : Entry) (f u : String) :
    (∃ s, db.sources.find? (fun s => s.rss_url == some f) = some s ∧
        find_or_create_source db e f u = (db, some s)) ∨
    (db.sources.find? (fun s => s.rss_url == some f) = none ∧ get_hostname u ≠ "" ∧
      ((∃ s, db.sources.find? (fun s2 => likeContains s2.base_url (get_hostname u)) = some s ∧
          find_or_create_source db e f u = (db, some s)) ∨
       (db.sources.find? (fun s2 => likeContains s2.base_url (get_hostname u)) = none ∧
        find_or_create_source db e f u =
          ({ db with sources := db.sources ++ [focNewSource db f u],
                     next_source_id := db.next_source_id + 1 }, some (focNewSource db f u))))) ∨
    (db.sources.find? (fun s => s.rss_url == some f) = none ∧ get_hostname u = "" ∧
      find_or_create_source db e f u = (db, none)) := by
  unfold find_or_create_source
  cases ha : db.sources.find? (fun s => s.rss_url == some f) with
  | some s => exact Or.inl ⟨s, rfl, rfl⟩
  | none =>
      dsimp only
      by_cases hh : get_hostname u ≠ ""
      · rw [if_pos hh]
        cases hb : db.sources.find? (fun s2 => likeContains s2.base_url (get_hostname u)) with
        | some s => exact Or.inr (Or.inl ⟨rfl, hh, Or.inl ⟨s, rfl, rfl⟩⟩)
        | none =>
            refine Or.inr (Or.inl ⟨rfl, hh, Or.inr ⟨rfl, ?_⟩⟩)
            unfold upsert_source
            have hbase : db.sources.find?
                (fun s => s.base_url == ("https://" ++ get_hostname u)) = none := by
              rw [List.find?_eq_none]
              intro x hx hbeq
              have hxb : x.base_url = "https://" ++ get_hostname u := by
                simpa using hbeq
              have hlike : likeContains x.base_url (get_hostname u) = true := by
                rw [hxb]
                exact likeContains_https _
              have := List.find?_eq_none.mp hb x hx
              exact this hlike
            rw [hbase]
            dsimp only
            rw [if_neg (by simp)]
            have hany : db.sources.any (fun s => s.rss_url == some f) = false := by
              rw [List.any_eq_false]
              intro x hx
              exact List.find?_eq_none.mp ha x hx
            rw [hany]
            rfl
      · rw [if_neg hh]
        push_neg at hh
        exact Or.inr (Or.inr ⟨rfl, hh, rfl⟩)

theorem find?_append_right (p : SourceRow → Bool) (l : List SourceRow) (a : SourceRow)
    (hl : ∀ x ∈ l, ¬ p x = true) (ha : p a = true) :
    (l ++ [a]).find? p = some a := by
  induction l with
  | nil =>
      simp only [List.nil_append]
      rw [List.find?_cons_of_pos _ ha]
  | cons x xs ih =>
      rw [List.cons_append,
        List.find?_cons_of_neg _ (hl x (List.mem_cons_self x xs))]
      exact ih (fun y hy => hl y (List.mem_cons_of_mem x hy))

/-- Claim C7 (amended): two entries of the same feed resolve to the same
Source identifier whenever their article URLs carry the same hostname —
whether resolution hits the stored feed URL, the base-URL-contains-hostname
match, or creates the source for the first entry and finds it by feed URL
for the second. (Entries with different hostnames may resolve to different
Sources; see the counterexample.) -/
theorem source_resolution_same_hostname (db : DB) (e1 e2 : Entry)
    (feed url1 url2 : String) (db1 db2 : DB) (s1 s2 : SourceRow)
    (hhost : get_hostname url1 = get_hostname url2)
    (h1 : find_or_create_source db e1 feed url1 = (db1, some s1))
    (h2 : find_or_create_source db1 e2 feed url2 = (db2, some s2)) :
    s1.id = s2.id := by
  rcases foc_spec db e1 feed url1 with ⟨s, hfind, heq⟩ | ⟨hanone, hh, hbc⟩ | ⟨_, _, heq⟩
  · -- step (a) hit for the first entry: no write
    rw [heq] at h1
    injection h1 with hdb hsome
    injection hsome with hs
    subst hdb
    subst hs
    rcases foc_spec db e2 feed url2 with ⟨s', hfind', heq'⟩ | ⟨hanone', _, _⟩ |
      ⟨hanone', _, _⟩
    · rw [heq'] at h2
      injection h2 with hdb2 hsome2
      injection hsome2 with hs2
      rw [hfind] at hfind'
      injection hfind' with hss
      rw [← hs2, ← hss]
    · rw [hanone'] at hfind
      exact Option.noConfusion hfind
    · rw [hanone'] at hfind
      exact Option.noConfusion hfind
  · rcases hbc with ⟨s, hbfind, heq⟩ | ⟨hbnone, heq⟩
    · -- step (b) hit for the first entry: no write
      rw [heq] at h1
      injection h1 with hdb hsome
      injection hsome with hs
      subst hdb
      subst hs
      rcases foc_spec db e2 feed url2 with ⟨s', hfind', _⟩ | ⟨_, _, hbc'⟩ |
        ⟨_, hh2, _⟩
      · rw [hanone] at hfind'
        exact Option.noConfusion hfind'
      · rcases hbc' with ⟨s', hbfind', heq'⟩ | ⟨hbnone', _⟩
        · rw [heq'] at h2
          injection h2 with hdb2 hsome2
          injection hsome2 with hs2
          rw [← hhost] at hbfind'
          rw [hbfind] at hbfind'
          injection hbfind' with hss
          rw [← hs2, ← hss]
        · rw [← hhost] at hbnone'
          rw [hbfind] at hbnone'
          exact Option.noConfusion hbnone'
      · rw [← hhost] at hh2
        exact absurd hh2 hh
    · -- step (c): the first entry created the source, with the feed URL
      rw [heq] at h1
      injection h1 with hdb hsome
      injection hsome with hs
      have hfind1 : db1.sources.find? (fun s => s.rss_url == some feed) =
          some (focNewSource db feed url1) := by
        rw [← hdb]
        dsimp only
        refine find?_append_right _ _ _ ?_ ?_
        · intro x hx
          exact List.find?_eq_none.mp hanone x hx
        · simp [focNewSource]
      rcases foc_spec db1 e2 feed url2 with ⟨s', hfind', heq'⟩ | ⟨hanone', _, _⟩ |
        ⟨hanone', _, _⟩
      · rw [heq'] at h2
        injection h2 with hdb2 hsome2
        injection hsome2 with hs2
        rw [hfind1] at hfind'
        injection hfind' with hss
        rw [← hs, ← hs2, ← hss]
      · rw [hanone'] at hfind1
        exact Option.noConfusion hfind1
      · rw [hanone'] at hfind1
        exact Option.noConfusion hfind1
  · rw [heq] at h1
    injection h1 with hdb hsome
    exact Option.noConfusion hsome

/-- The source step (c) creates for hostname `ex.com` on an empty store. -/
def resolvedSource : SourceRow :=
  { id := 1, name := "Ex", base_url := "https://ex.com", rss_url := some demoFeed }

def resolvedDb : DB := { sources := [resolvedSource], next_source_id := 2 }

/-- Witness for C7's theorem: the first entry creates the source, the second
finds it again by stored feed URL. -/
theorem source_resolution_same_hostname_witness : resolvedSource.id = resolvedSource.id :=
  source_resolution_same_hostname {} {} {} demoFeed "https://ex.com/a" "https://ex.com/b"
    resolvedDb resolvedDb resolvedSource resolvedSource (by decide) (by decide) (by decide)

def srcA : SourceRow :=
  { id := 1, name := "A", base_url := "https://a.com", rss_url := some "https://a.com/rss" }

def srcB : SourceRow :=
  { id := 2, name := "B", base_url := "https://b.com", rss_url := some "https://b.com/rss" }

def dbAB : DB := { sources := [srcA, srcB], next_source_id := 3 }

/-- Claim C7, counterexample: two entries of the same feed whose links live
on different hostnames resolve — through the base-URL-contains-hostname
fallback — to two different Source identifiers, so the claim's "two entries
from the same feed URL always resolve to the same Source identifier" is
false. -/
theorem source_resolution_diverges :
    (find_or_create_source dbAB {} demoFeed "https://a.com/x").2.map (fun s => s.id) = some 1 ∧
    (find_or_create_source dbAB {} demoFeed "https://a.com/x").1 = dbAB ∧
    (find_or_create_source dbAB {} demoFeed "https://b.com/y").2.map (fun s => s.id) = some 2 := by
  decide

/-! ## Claim C1: deduplication and the second ingestion pass -/

/-- The hostname of the entry's (stripped) link. -/
def hostOf (e : Entry) : String := get_hostname (entryUrl e)

/-- The text the extraction fallback yields for an entry. -/
def entryTextOf (libs : Libs) (e : Entry) : String :=
  entry_text libs.extract e (entryUrl e)

/-- The viability check of line 200: non-empty text of stripped length at
least 100. -/
def textViable (libs : Libs) (e : Entry) : Prop :=
  ¬(entryTextOf libs e = "" ∨ (pyStrip (entryTextOf libs e)).length < 100)

/-- A stored source that lets resolution succeed without writing: one whose
stored feed URL is this feed's, or whose base URL contains the hostname. -/
def GoodSrc (f host : String) (db : DB) : Prop :=
  ∃ s ∈ db.sources, s.rss_url = some f ∨ likeContains s.base_url host = true

theorem get_hostname_empty : get_hostname "" = "" := rfl

theorem foc_sources_grow (db : DB) (e : Entry) (f u : String) :
    (find_or_create_source db e f u).1.sources = db.sources ∨
    (find_or_create_source db e f u).1.sources = db.sources ++ [focNewSource db f u] := by
  rcases foc_spec db e f u with ⟨s, _, heq⟩ | ⟨_, _, hbc⟩ | ⟨_, _, heq⟩
  · rw [heq]
    exact Or.inl rfl
  · rcases hbc with ⟨s, _, heq⟩ | ⟨_, heq⟩
    · rw [heq]
      exact Or.inl rfl
    · rw [heq]
      exact Or.inr rfl
  · rw [heq]
    exact Or.inl rfl

theorem foc_good (db : DB) (e : Entry) (f u : String) (db1 : DB) (s : SourceRow)
    (h : find_or_create_source db e f u = (db1, some s)) :
    GoodSrc f (get_hostname u) db1 := by
  rcases foc_spec db e f u with ⟨s', hfind, heq⟩ | ⟨_, _, hbc⟩ | ⟨_, _, heq⟩
  · rw [heq] at h
    injection h with hdb _
    subst hdb
    refine ⟨s', List.mem_of_find?_eq_some hfind, Or.inl ?_⟩
    have hp := List.find?_some hfind
    simpa using hp
  · rcases hbc with ⟨s', hfind, heq⟩ | ⟨hbnone, heq⟩
    · rw [heq] at h
      injection h with hdb _
      subst hdb
      have hp := List.find?_some hfind
      exact ⟨s', List.mem_of_find?_eq_some hfind, Or.inr (by simpa using hp)⟩
    · rw [heq] at h
      injection h with hdb _
      subst hdb
      refine ⟨focNewSource db f u, ?_, Or.inl rfl⟩
      show focNewSource db f u ∈ db.sources ++ [focNewSource db f u]
      exact List.mem_append_right _ (List.mem_singleton_self _)
  · rw [heq] at h
    injection h with _ hsome
    exact Option.noConfusion hsome

theorem foc_some_of_host (db : DB) (e : Entry) (f u : String)
    (hh : get_hostname u ≠ "") :
    ∃ db1 s, find_or_create_source db e f u = (db1, some s) := by
  rcases foc_spec db e f u with ⟨s, _, heq⟩ | ⟨_, _, hbc⟩ | ⟨_, hh2, _⟩
  · exact ⟨db, s, heq⟩
  · rcases hbc with ⟨s, _, heq⟩ | ⟨_, heq⟩
    · exact ⟨db, s, heq⟩
    · exact ⟨_, _, heq⟩
  · exact absurd hh2 hh

theorem foc_nowrite_good (db : DB) (e : Entry) (f u : String)
    (hg : GoodSrc f (get_hostname u) db) (hh : get_hostname u ≠ "") :
    ∃ s, find_or_create_source db e f u = (db, some s) := by
  rcases foc_spec db e f u with ⟨s, _, heq⟩ | ⟨hanone, _, hbc⟩ | ⟨_, hh2, _⟩
  · exact ⟨s, heq⟩
  · rcases hbc with ⟨s, _, heq⟩ | ⟨hbnone, heq⟩
    · exact ⟨s, heq⟩
    · exfalso
      obtain ⟨s, hmem, hor⟩ := hg
      rcases hor with hrss | hlike
      · exact List.find?_eq_none.mp hanone s hmem (by simp [hrss])
      · exact List.find?_eq_none.mp hbnone s hmem hlike
  · exact absurd hh2 hh

theorem pfe_sources_grow (libs : Libs) (fail : FailAt) (db : DB) (e : Entry)
    (feed : String) (n : Nat) :
    ∃ tail, (process_feed_entry_fail libs fail db e feed n).1.sources = db.sources ++ tail := by
  simp only [process_feed_entry_fail]
  split
  · exact ⟨[], (List.append_nil _).symm⟩
  · split
    · exact ⟨[], (List.append_nil _).symm⟩
    · split
      next db1 hfoc =>
        rcases foc_sources_grow db e feed (entryUrl e) with hgrow | hgrow <;>
          rw [hfoc] at hgrow
        · exact ⟨[], by rw [List.append_nil]; exact hgrow⟩
        · exact ⟨[focNewSource db feed (entryUrl e)], hgrow⟩
      next db1 source hfoc =>
        have hone : ∃ tail, db1.sources = db.sources ++ tail := by
          rcases foc_sources_grow db e feed (entryUrl e) with hgrow | hgrow <;>
            rw [hfoc] at hgrow
          · exact ⟨[], by rw [List.append_nil]; exact hgrow⟩
          · exact ⟨[focNewSource db feed (entryUrl e)], hgrow⟩
        obtain ⟨tail, htail⟩ := hone
        split
        · exact ⟨tail, htail⟩
        · split
          · exact ⟨tail, htail⟩
          · exact ⟨tail, htail⟩

theorem pfe_mem_mono (libs : Libs) (fail : FailAt) (db : DB) (e : Entry)
    (feed : String) (n : Nat) (x : ArticleRow) (hx : x ∈ db.articles) :
    x ∈ (process_feed_entry_fail libs fail db e feed n).1.articles := by
  rcases pfe_cases libs fail db e feed n with ⟨heq, _⟩ | ⟨a, heq, _⟩
  · rw [heq]
    exact hx
  · rw [heq]
    exact List.mem_append_left _ hx

theorem pfe_good_mono (libs : Libs) (fail : FailAt) (db : DB) (e : Entry)
    (feed : String) (n : Nat) (f host : String) (hg : GoodSrc f host db) :
    GoodSrc f host (process_feed_entry_fail libs fail db e feed n).1 := by
  obtain ⟨s, hmem, hor⟩ := hg
  obtain ⟨tail, htail⟩ := pfe_sources_grow libs fail db e feed n
  exact ⟨s, by rw [htail]; exact List.mem_append_left _ hmem, hor⟩

theorem pe_cons (libs : Libs) (db : DB) (e : Entry) (es : List Entry)
    (feed : String) (n : Nat) :
    process_entries libs db (e :: es) feed n =
      process_entries libs (process_feed_entry libs db e feed n).1 es feed n := rfl

theorem pe_mem_mono (libs : Libs) (es : List Entry) (feed : String) (n : Nat) :
    ∀ (db : DB) (x : ArticleRow), x ∈ db.articles →
      x ∈ (process_entries libs db es feed n).articles := by
  induction es with
  | nil => exact fun db x hx => hx
  | cons e es ih =>
      intro db x hx
      rw [pe_cons]
      exact ih _ x (pfe_mem_mono libs FailAt.noFail db e feed n x hx)

theorem pe_good_mono (libs : Libs) (es : List Entry) (feed : String) (n : Nat) :
    ∀ (db : DB) (f host : String), GoodSrc f host db →
      GoodSrc f host (process_entries libs db es feed n) := by
  induction es with
  | nil => exact fun db f host hg => hg
  | cons e es ih =>
      intro db f host hg
      rw [pe_cons]
      exact ih _ f host (pfe_good_mono libs FailAt.noFail db e feed n f host hg)

theorem pfe_skip_hash (libs : Libs) (fail : FailAt) (db : DB) (e : Entry)
    (feed : String) (n : Nat) (hurl : entryUrl e ≠ "")
    (hmem : ∃ x ∈ db.articles, x.url_hash = make_hash (entryUrl e)) :
    process_feed_entry_fail libs fail db e feed n = (db, false) := by
  simp only [process_feed_entry_fail]
  rw [if_neg hurl]
  have hany : db.articles.any (fun a => a.url_hash == make_hash (entryUrl e)) = true := by
    rw [List.any_eq_true]
    obtain ⟨x, hx, hh⟩ := hmem
    exact ⟨x, hx, by simp [hh]⟩
  rw [if_pos hany]

theorem pfe_adds (libs : Libs) (db : DB) (e : Entry) (feed : String) (n : Nat)
    (hh : hostOf e ≠ "")
    (hnew : ∀ x ∈ db.articles, x.url_hash ≠ make_hash (entryUrl e))
    (htext : textViable libs e) :
    ∃ x ∈ (process_feed_entry_fail libs FailAt.noFail db e feed n).1.articles,
      x.url_hash = make_hash (entryUrl e) := by
  have hurl : entryUrl e ≠ "" := fun he => hh (by rw [hostOf, he, get_hostname_empty])
  obtain ⟨db1, s, hfoc⟩ := foc_some_of_host db e feed (entryUrl e) hh
  have htext' : ¬(entry_text libs.extract e (entryUrl e) = "" ∨
      (pyStrip (entry_text libs.extract e (entryUrl e))).length < 100) := htext
  simp only [process_feed_entry_fail]
  rw [if_neg hurl]
  have hany : ¬ db.articles.any (fun a => a.url_hash == make_hash (entryUrl e)) = true := by
    rw [List.any_eq_true]
    rintro ⟨x, hx, hbeq⟩
    exact hnew x hx (by simpa using hbeq)
  rw [if_neg hany, hfoc]
  dsimp only
  rw [if_neg htext', if_neg (by simp : ¬ FailAt.noFail = FailAt.commit)]
  exact ⟨_, List.mem_append_right _ (List.mem_singleton_self _), rfl⟩

theorem pfe_noop (libs : Libs) (db : DB) (e : Entry) (feed : String) (n : Nat)
    (hh : hostOf e ≠ "")
    (hdich : (∃ x ∈ db.articles, x.url_hash = make_hash (entryUrl e)) ∨
      (¬ textViable libs e ∧ GoodSrc feed (hostOf e) db)) :
    process_feed_entry_fail libs FailAt.noFail db e feed n = (db, false) := by
  have hurl : entryUrl e ≠ "" := fun he => hh (by rw [hostOf, he, get_hostname_empty])
  rcases hdich with hmem | ⟨htext, hgood⟩
  · exact pfe_skip_hash libs FailAt.noFail db e feed n hurl hmem
  · simp only [process_feed_entry_fail]
    rw [if_neg hurl]
    by_cases hany : db.articles.any (fun a => a.url_hash == make_hash (entryUrl e)) = true
    · rw [if_pos hany]
    · rw [if_neg hany]
      obtain ⟨s, hfoc⟩ := foc_nowrite_good db e feed (entryUrl e) hgood hh
      rw [hfoc]
      dsimp only
      have horr : entry_text libs.extract e (entryUrl e) = "" ∨
          (pyStrip (entry_text libs.extract e (entryUrl e))).length < 100 := not_not.mp htext
      rw [if_pos horr]

theorem pe_of_noop (libs : Libs) (es : List Entry) (feed : String) (n : Nat) (P : DB) :
    (∀ e ∈ es, process_feed_entry_fail libs FailAt.noFail P e feed n = (P, false)) →
    process_entries libs P es feed n = P := by
  induction es with
  | nil => exact fun _ => rfl
  | cons e es ih =>
      intro h
      rw [pe_cons]
      have hstate : (process_feed_entry libs P e feed n).1 = P := by
        show (process_feed_entry_fail libs FailAt.noFail P e feed n).1 = P
        rw [h e (List.mem_cons_self e es)]
      rw [hstate]
      exact ih (fun x hx => h x (List.mem_cons_of_mem e hx))

theorem pe_dichotomy (libs : Libs) (es : List Entry) (feed : String) (n : Nat) :
    ∀ db : DB, (∀ e ∈ es, hostOf e ≠ "") → ∀ e ∈ es,
      (∃ x ∈ (process_entries libs db es feed n).articles,
          x.url_hash = make_hash (entryUrl e)) ∨
      (¬ textViable libs e ∧ GoodSrc feed (hostOf e) (process_entries libs db es feed n)) := by
  induction es with
  | nil =>
      intro db _ e he
      cases he
  | cons e0 es ih =>
      intro db hhosts e he
      rw [pe_cons]
      rcases List.mem_cons.mp he with heq | hin
      · subst heq
        have hh0 : hostOf e ≠ "" := hhosts e (List.mem_cons_self e es)
        by_cases hmem : ∃ x ∈ db.articles, x.url_hash = make_hash (entryUrl e)
        · obtain ⟨x, hx, hxh⟩ := hmem
          exact Or.inl ⟨x, pe_mem_mono libs es feed n _ x
            (pfe_mem_mono libs FailAt.noFail db e feed n x hx), hxh⟩
        · push_neg at hmem
          by_cases htext : textViable libs e
          · obtain ⟨x, hx, hxh⟩ := pfe_adds libs db e feed n hh0 hmem htext
            exact Or.inl ⟨x, pe_mem_mono libs es feed n _ x hx, hxh⟩
          · obtain ⟨db1, s, hfoc⟩ := foc_some_of_host db e feed (entryUrl e) hh0
            have hgood1 : GoodSrc feed (hostOf e) db1 :=
              foc_good db e feed (entryUrl e) db1 s hfoc
            have hurl : entryUrl e ≠ "" :=
              fun hu => hh0 (by rw [hostOf, hu, get_hostname_empty])
            have hany : ¬ db.articles.any
                (fun a => a.url_hash == make_hash (entryUrl e)) = true := by
              rw [List.any_eq_true]
              rintro ⟨x, hx, hbeq⟩
              exact hmem x hx (by simpa using hbeq)
            have hstate : (process_feed_entry libs db e feed n).1 = db1 := by
              show (process_feed_entry_fail libs FailAt.noFail db e feed n).1 = db1
              simp only [process_feed_entry_fail]
              rw [if_neg hurl, if_neg hany, hfoc]
              dsimp only
              have horr : entry_text libs.extract e (entryUrl e) = "" ∨
                  (pyStrip (entry_text libs.extract e (entryUrl e))).length < 100 :=
                not_not.mp htext
              rw [if_pos horr]
            rw [hstate]
            exact Or.inr ⟨htext, pe_good_mono libs es feed n db1 feed (hostOf e) hgood1⟩
      · exact ih _ (fun x hx => hhosts x (List.mem_cons_of_mem e0 hx)) e hin

theorem pe_hash_pairwise (libs : Libs) (es : List Entry) (feed : String) (n : Nat) :
    ∀ db : DB, db.articles.Pairwise (fun a b => a.url_hash ≠ b.url_hash) →
      (process_entries libs db es feed n).articles.Pairwise
        (fun a b => a.url_hash ≠ b.url_hash) := by
  induction es with
  | nil => exact fun db h => h
  | cons e es ih =>
      intro db h
      rw [pe_cons]
      refine ih _ ?_
      show (process_feed_entry_fail libs FailAt.noFail db e feed n).1.articles.Pairwise _
      rcases pfe_cases libs FailAt.noFail db e feed n with ⟨heq, _⟩ |
        ⟨a, heq, _, hhash, _, _, _, _, _, hnew⟩
      · rw [heq]
        exact h
      · rw [heq, List.pairwise_append]
        refine ⟨h, List.pairwise_singleton _ _, ?_⟩
        intro x hx y hy
        rw [List.mem_singleton] at hy
        subst hy
        rw [hhash]
        exact hnew x hx

/-- Claim C1 (amended): (i) running the entry loop twice over the same feed
is a no-op the second time — it creates zero new Articles and changes
nothing — provided every entry's link has a non-empty hostname; (ii) the
url-hash uniqueness invariant (at most one Article per SHA-256 of a URL, so
at most one per URL) is preserved by every run; (iii) an entry whose URL
hash is already stored is skipped without touching the store — a no-op, not
an update. (Without the hostname proviso a second pass can create rows: see
the counterexample, where a source created late in the first pass lets a
previously unresolvable entry be ingested by the second pass.) -/
theorem ingest_dedup_and_second_pass (libs : Libs) (db : DB) (es : List Entry)
    (feed : String) (n : Nat)
    (hhosts : ∀ e ∈ es, get_hostname (entryUrl e) ≠ "")
    (huniq : db.articles.Pairwise (fun a b => a.url_hash ≠ b.url_hash)) :
    process_entries libs (process_entries libs db es feed n) es feed n =
      process_entries libs db es feed n ∧
    (process_entries libs db es feed n).articles.Pairwise
      (fun a b => a.url_hash ≠ b.url_hash) ∧
    (∀ e : Entry, entryUrl e ≠ "" →
      (∃ x ∈ db.articles, x.url_hash = make_hash (entryUrl e)) →
      process_feed_entry libs db e feed n = (db, false)) := by
  refine ⟨?_, pe_hash_pairwise libs es feed n db huniq, ?_⟩
  · apply pe_of_noop
    intro e he
    exact pfe_noop libs _ e feed n (hhosts e he)
      (pe_dichotomy libs es feed n db hhosts e he)
  · intro e hurl hmem
    exact pfe_skip_hash libs FailAt.noFail db e feed n hurl hmem

/-- Witness for C1's theorem: a one-entry feed on the empty store; the
second pass leaves the store untouched. -/
theorem ingest_dedup_and_second_pass_witness :
    process_entries demoLibs (process_entries demoLibs {} [demoEntrySite] demoFeed 3)
        [demoEntrySite] demoFeed 3 =
      process_entries demoLibs {} [demoEntrySite] demoFeed 3 :=
  (ingest_dedup_and_second_pass demoLibs {} [demoEntrySite] demoFeed 3
    (by decide) List.Pairwise.nil).1

set_option maxRecDepth 400000 in
/-- Claim C1, counterexample: a feed with a relative-link entry (no
hostname) and a normal entry. The first pass skips the relative entry (no
source can be resolved) and stores one article, creating the feed's Source;
the second pass resolves the relative entry against that Source and stores
a second article — so a second ingestion over unchanged content does create
a new Article row. -/
theorem ingest_second_pass_adds_row :
    (process_entries demoLibs {} [demoEntryRel, demoEntrySite] demoFeed 3).articles.length = 1 ∧
    (process_entries demoLibs
        (process_entries demoLibs {} [demoEntryRel, demoEntrySite] demoFeed 3)
        [demoEntryRel, demoEntrySite] demoFeed 3).articles.length = 2 := by
  decide
